import Mathlib

/-!
# insights-results-aggregator-cleaner: cleaner.go

A shallow embedding of `cleaner.go` (validator, cluster list reader, summary
table, mode selection) together with the properties of it that the
specification states.

Conventions of the embedding

* A Go `string` is its sequence of bytes, `List Nat`, each byte a number below
  256. `len(s)` is `s.length`, `s[i]` is `s.get ⟨i, h⟩` where `h` proves the
  index to be in range (so that the run-time panic of an index out of range
  cannot occur), `s[a:]` is `s.drop a` and `s[:b]` is `s.take b`.
* A Go `error` value is `Option GoError`, `none` being `nil`.
* A Go slice or map that may be `nil` is an `Option`, `none` being `nil`.
* Calls of the `log` package only write to the log: they change no result and
  no control flow, and are left out.
-/

set_option autoImplicit false

/-- A Go string: the sequence of its bytes. -/
abbrev GoString := List Nat

/-- The bytes of an ASCII literal. -/
def ascii (s : String) : GoString := s.data.map Char.toNat

/-! ## github.com/google/uuid (imported at cleaner.go:43)

`IsValidUUID` is a one-line wrapper around `uuid.Parse` of the module
`github.com/google/uuid`, which the repository imports and does not vendor.
`uuid.Parse`, `xtob` and the table `xvalues` are transcribed here from that
module (files `uuid.go` and `util.go`). The module documents `Parse` so: both
standard forms, `xxxxxxxx-xxxx-xxxx-xxxx-xxxxxxxxxxxx` and the same after
`urn:uuid:`, are decoded, as well as the Microsoft encoding (the standard form
between braces) and the raw hex encoding of 32 digits; of a 38-byte string only
the middle 36 bytes are examined. The released versions of the module, up to
1.6.0, differ in the text of the errors and in how the `urn:uuid:` comparison
is spelled, not in which strings are decoded.
-/

namespace uuid

/-- The errors `Parse` returns. -/
inductive ParseError where
  /-- The error `invalidLengthError{len(s)}`, "invalid UUID length: %d". -/
  | invalidLength (len : Nat)
  /-- The error "invalid urn prefix: %q". -/
  | invalidUrn (head : GoString)
  /-- The error "invalid UUID format". -/
  | invalidFormat
  deriving DecidableEq, Repr

/-- The table `xvalues`: the value of a hexadecimal digit, 255 for every other
byte. -/
def xvalues (b : Nat) : Nat :=
  if 48 ≤ b ∧ b ≤ 57 then b - 48          -- '0'..'9'
  else if 65 ≤ b ∧ b ≤ 70 then b - 55     -- 'A'..'F'
  else if 97 ≤ b ∧ b ≤ 102 then b - 87    -- 'a'..'f'
  else 255

/-- The function `xtob`: two hex bytes to one byte, and whether both were hex
digits. `(b1 << 4) | b2` is computed in the type `byte`. -/
def xtob (x1 x2 : Nat) : Nat × Bool :=
  let b1 := xvalues x1
  let b2 := xvalues x2
  (((b1 <<< 4) % 256) ||| b2, b1 != 255 && b2 != 255)

/-- The loop `for i, x := range [16]int{...} { v, ok := xtob(s[x], s[x+1]); ... }`
over the offsets `xs`, each of which is below 35. -/
def decodeAt (s : GoString) (h : 36 ≤ s.length) : List (Fin 35) → Except ParseError (List Nat)
  | [] => .ok []
  | x :: xs =>
    match xtob (s.get ⟨x.val, by have := x.isLt; omega⟩)
        (s.get ⟨x.val + 1, by have := x.isLt; omega⟩) with
    | (v, true) =>
      match decodeAt s h xs with
      | .ok vs => .ok (v :: vs)
      | .error e => .error e
    | (_, false) => .error .invalidFormat

/-- The array literal the second loop of `Parse` ranges over. -/
def offsets : List (Fin 35) :=
  [0, 2, 4, 6, 9, 11, 14, 16, 19, 21, 24, 26, 28, 30, 32, 34]

/-- The part of `Parse` after the `switch`: "s is now at least 36 bytes long,
it must be of the form xxxxxxxx-xxxx-xxxx-xxxx-xxxxxxxxxxxx". -/
def parseHyphenated (s : GoString) (h : 36 ≤ s.length) : Except ParseError (List Nat) :=
  if s.get ⟨8, by omega⟩ ≠ 45 ∨ s.get ⟨13, by omega⟩ ≠ 45 ∨
      s.get ⟨18, by omega⟩ ≠ 45 ∨ s.get ⟨23, by omega⟩ ≠ 45 then
    .error .invalidFormat
  else
    decodeAt s h offsets

/-- The loop of `case 32`: `for i := range uuid { uuid[i], ok = xtob(s[i*2], s[i*2+1]); ... }`. -/
def decodeRaw (s : GoString) (h : 32 ≤ s.length) : List (Fin 16) → Except ParseError (List Nat)
  | [] => .ok []
  | i :: is =>
    match xtob (s.get ⟨i.val * 2, by have := i.isLt; omega⟩)
        (s.get ⟨i.val * 2 + 1, by have := i.isLt; omega⟩) with
    | (v, true) =>
      match decodeRaw s h is with
      | .ok vs => .ok (v :: vs)
      | .error e => .error e
    | (_, false) => .error .invalidFormat

/-- ASCII lower case of one byte. -/
def lowerByte (b : Nat) : Nat := if 65 ≤ b ∧ b ≤ 90 then b + 32 else b

/-- The test `strings.EqualFold(s[:9], "urn:uuid:")` (`strings.ToLower(s[:9]) ==
"urn:uuid:"` in the older versions). The right-hand side is nine ASCII bytes,
none of them `k` or `s`, so the only strings equal to it under Unicode case
folding are its ASCII case variants. -/
def isUrnHead (t : GoString) : Bool := t.map lowerByte == ascii "urn:uuid:"

/-- The function `uuid.Parse`: the sixteen bytes of the UUID, or an error. -/
def Parse (s : GoString) : Except ParseError (List Nat) :=
  if h36 : s.length = 36 then
    -- xxxxxxxx-xxxx-xxxx-xxxx-xxxxxxxxxxxx
    parseHyphenated s (by omega)
  else if h45 : s.length = 36 + 9 then
    -- urn:uuid:xxxxxxxx-xxxx-xxxx-xxxx-xxxxxxxxxxxx
    if !isUrnHead (s.take 9) then
      .error (.invalidUrn (s.take 9))
    else
      parseHyphenated (s.drop 9) (by simp [h45])
  else if h38 : s.length = 36 + 2 then
    -- {xxxxxxxx-xxxx-xxxx-xxxx-xxxxxxxxxxxx}: `s = s[1:]`
    parseHyphenated (s.drop 1) (by simp [h38])
  else if h32 : s.length = 32 then
    -- xxxxxxxxxxxxxxxxxxxxxxxxxxxxxxxx
    decodeRaw s (by omega) (List.finRange 16)
  else
    .error (.invalidLength s.length)

end uuid

/-! ## cleaner.go -/

/-- The function `IsValidUUID` (cleaner.go:57): `_, err := uuid.Parse(input);
return err == nil`. -/
def IsValidUUID (input : GoString) : Bool :=
  match uuid.Parse input with
  | .ok _ => true
  | .error _ => false

/-- An error value other than `nil`: `io.EOF`, or any other error, identified
by its text. -/
inductive GoError where
  /-- The value `io.EOF`. -/
  | EOF
  /-- Any other error (a `*fs.PathError`, a driver error, ...). -/
  | other (text : String)
  deriving DecidableEq, Repr

/-- A Go slice: `none` is the nil slice, `some l` a slice with the elements `l`. -/
abbrev Slice (α : Type) := Option (List α)

/-- The builtin `len` on a slice. -/
def Slice.len {α : Type} : Slice α → Int
  | none => 0
  | some l => (l.length : Int)

/-- The builtin `append(s, x)`. -/
def Slice.append {α : Type} : Slice α → α → Slice α
  | none, x => some [x]
  | some l, x => some (l ++ [x])

namespace os

/-- An open file, as `readClusterList` sees it through its reader: `data` are
the bytes the reads deliver, in order, before the first read that fails, and
`fail` is the error of that read, `io.EOF` when the file was read to its end. -/
structure File where
  data : GoString
  fail : GoError
  deriving DecidableEq, Repr

/-- The file system `os.Open` looks the name up in: the open file, or the
error of the open. -/
structure FileSystem where
  Open : String → Except GoError File

end os

namespace bufio

/-- A `*bufio.Reader` over an `os.File`: the bytes not yet consumed and the
error the underlying reads end with. -/
structure Reader where
  buf : GoString
  err : GoError
  deriving DecidableEq, Repr

/-- The function `bufio.NewReader`. -/
def NewReader (file : os.File) : Reader := ⟨file.data, file.fail⟩

/-- Splits `s` after the first occurrence of `delim`; `none` when `delim` does
not occur in `s`. -/
def splitAfter (delim : Nat) : GoString → Option (GoString × GoString)
  | [] => none
  | b :: bs =>
    if b = delim then some ([b], bs)
    else
      match splitAfter delim bs with
      | some (line, rest) => some (b :: line, rest)
      | none => none

/-- The method `(*Reader).ReadString`: "reads until the first occurrence of
delim in the input, returning a string containing the data up to and including
the delimiter. If ReadString encounters an error before finding a delimiter, it
returns the data read before the error and the error itself (often io.EOF)." -/
def Reader.ReadString (r : Reader) (delim : Nat) : GoString × Option GoError × Reader :=
  match splitAfter delim r.buf with
  | some (line, rest) => (line, none, { r with buf := rest })
  | none => (r.buf, some r.err, { r with buf := [] })

end bufio

namespace strings

/-- The function `trimRightByte` of package `strings`. -/
def trimRightByte (s : GoString) (c : Nat) : GoString := s.rdropWhile (fun b => b == c)

/-- The function `trimLeftByte` of package `strings`. -/
def trimLeftByte (s : GoString) (c : Nat) : GoString := s.dropWhile (fun b => b == c)

/-- The function `strings.Trim(s, cutset)` for a cutset of the one ASCII byte
`c`, the case `Trim` handles by `trimLeftByte(trimRightByte(s, c), c)`. -/
def Trim (s : GoString) (c : Nat) : GoString := trimLeftByte (trimRightByte s c) c

end strings

/-- The type `ClusterName`, a string type (`ClusterName(line)` converts a
`string` to it). -/
abbrev ClusterName := GoString

/-- The type `ClusterList`, a slice of `ClusterName`
(`make([]ClusterName, 0)` is returned as one). -/
abbrev ClusterList := Slice ClusterName

/-- The `for` loop of `readClusterList` (cleaner.go:85-98), with the state it
reads and writes: the reader, `clusterList` and `improperClusterCounter`. Every
turn that does not leave the loop consumes at least one byte, so the loop takes
at most one turn more than the reader holds bytes; `fuel` bounds the number of
turns, and `none` says that the bound was too small. -/
def readLoop : Nat → bufio.Reader → ClusterList → Int → Option (ClusterList × Int)
  | 0, _, _, _ => none
  | fuel + 1, reader, clusterList, improperClusterCounter =>
    match reader.ReadString 10 with
    | (_, some _, _) => some (clusterList, improperClusterCounter)          -- break
    | (line, none, reader) =>
      let line := strings.Trim line 10
      if IsValidUUID line then
        readLoop fuel reader (clusterList.append line) improperClusterCounter
      else
        readLoop fuel reader clusterList (improperClusterCounter + 1)

/-- The function `readClusterList` (cleaner.go:62): the three values it
returns. The counter is a Go `int`; it counts lines of one file, whose size is
below `2^63` bytes, so it cannot overflow. -/
def readClusterList (fs : os.FileSystem) (filename : String) :
    Option (ClusterList × Int × Option GoError) :=
  let improperClusterCounter : Int := 0
  let clusterList : ClusterList := some []
  match fs.Open filename with
  | .error err => some (none, improperClusterCounter, some err)
  | .ok file =>
    let reader := bufio.NewReader file
    match readLoop (file.data.length + 1) reader clusterList improperClusterCounter with
    | none => none
    | some (clusterList, improperClusterCounter) =>
      some (clusterList, improperClusterCounter, none)

/-- A Go `map[string]int`: `none` is the nil map, `some m` a map with the
entries `m`, whose keys are pairwise different. -/
abbrev GoMap := Option (List (GoString × Int))

/-- The entries of a map; a nil map has none. -/
def GoMap.entries : GoMap → List (GoString × Int)
  | none => []
  | some m => m

/-- The values of a map. -/
def GoMap.values (m : GoMap) : List Int := m.entries.map Prod.snd

/-- The result of an arithmetic operation in the type `int` (64 bits, two's
complement, on the platforms the tool runs on), from its exact value. -/
def wrapInt (x : Int) : Int := (x + 2 ^ 63) % 2 ^ 64 - 2 ^ 63

namespace strconv

/-- The function `strconv.Itoa`: the decimal text of an `int`. -/
def Itoa (n : Int) : GoString := ascii (toString n)

end strconv

/-- The type `Summary`. Its declaration is in another file of the repository;
the three fields are those cleaner.go reads and writes, with the types they
have there (`strconv.Itoa` of the two counts, `range` over the map with a
string key and a value that is added to an `int`). -/
structure Summary where
  ProperClusterEntries : Int
  ImproperClusterEntries : Int
  DeletionsForTable : GoMap
  deriving DecidableEq, Repr

namespace tablewriter

/-- The part of a `*tablewriter.Table` that `PrintSummaryTable` sets: the table
that `Render` writes to the standard output. -/
structure Table where
  colWidth : Nat
  header : List GoString
  rows : List (List GoString)
  footer : List GoString
  deriving DecidableEq, Repr

/-- The function `tablewriter.NewWriter(os.Stdout)`: an empty table. -/
def NewWriter : Table := ⟨0, [], [], []⟩

/-- The method `SetColWidth`. -/
def Table.SetColWidth (t : Table) (w : Nat) : Table := { t with colWidth := w }

/-- The method `SetHeader`. -/
def Table.SetHeader (t : Table) (keys : List GoString) : Table := { t with header := keys }

/-- The method `Append`: one more row. -/
def Table.Append (t : Table) (row : List GoString) : Table := { t with rows := t.rows ++ [row] }

/-- The method `SetFooter`. -/
def Table.SetFooter (t : Table) (keys : List GoString) : Table := { t with footer := keys }

end tablewriter

/-- The body of the `range` loop of `PrintSummaryTable` (cleaner.go:119-123):
one turn, on the pair `(totalDeletions, table)`. -/
def summaryStep (acc : Int × tablewriter.Table) (entry : GoString × Int) :
    Int × tablewriter.Table :=
  let (totalDeletions, table) := acc
  let (tableName, deletions) := entry
  (wrapInt (totalDeletions + deletions),
    table.Append [ascii "Deletions from table \x27" ++ tableName ++ ascii "\x27",
      strconv.Itoa deletions])

/-- The function `PrintSummaryTable` (cleaner.go:107): the table it renders.
`order` is the sequence in which `range` yields the entries of
`summary.DeletionsForTable`, which Go leaves unspecified: some arrangement of
the entries of the map. -/
def PrintSummaryTable (summary : Summary) (order : List (GoString × Int)) : tablewriter.Table :=
  let table := tablewriter.NewWriter
  let table := table.SetColWidth 60
  let table := table.SetHeader [ascii "Summary", ascii "Count"]
  let table := table.Append [ascii "Proper cluster entries",
    strconv.Itoa summary.ProperClusterEntries]
  let table := table.Append [ascii "Improper cluster entries",
    strconv.Itoa summary.ImproperClusterEntries]
  let totalDeletions : Int := 0
  let (totalDeletions, table) := order.foldl summaryStep (totalDeletions, table)
  let table := table.SetFooter [ascii "Total deletions", strconv.Itoa totalDeletions]
  table

/-- Modelled from the spec: the declaration of `ConfigStruct` is in a file of
the repository other than cleaner.go. Kept are the two fields
`doSelectedOperation` reads, `Cleaner.ClusterListFile` (the path to the
cluster-list file) and `Cleaner.MaxAge` (the staleness threshold). -/
structure CleanerConfiguration where
  MaxAge : String
  ClusterListFile : String
  deriving DecidableEq, Repr

/-- Modelled from the spec: see `CleanerConfiguration`. -/
structure ConfigStruct where
  Cleaner : CleanerConfiguration
  deriving DecidableEq, Repr

/-- The three functions `doSelectedOperation` calls that the repository defines
in its storage file. Each works on the database behind `connection`; `DB` is
the state of that database, which a call reads and may change. Their results
are taken as given: nothing is assumed about them. -/
structure Storage (DB : Type) where
  performCleanupInDB : DB → ClusterList → (GoMap × Option GoError) × DB
  fillInDatabaseByTestData : DB → Option GoError × DB
  displayAllOldRecords : DB → String → Option GoError × DB

/-- A call `doSelectedOperation` makes, with its arguments (the connection
apart). -/
inductive Call where
  | readClusterList (filename : String)
  | performCleanupInDB (clusterList : ClusterList)
  | PrintSummaryTable (summary : Summary)
  | fillInDatabaseByTestData
  | displayAllOldRecords (maxAge : String)
  deriving DecidableEq, Repr

/-- What one run of `doSelectedOperation` gives: the error it returns, the
calls it made, in order, and the state it leaves the database in. -/
structure Run (DB : Type) where
  err : Option GoError
  calls : List Call
  db : DB

/-- The function `doSelectedOperation` (cleaner.go:131). `none` only if
`readClusterList` gives `none`. -/
def doSelectedOperation {DB : Type} (fs : os.FileSystem) (storage : Storage DB)
    (config : ConfigStruct) (connection : DB)
    (performCleanup fillInDatabase printSummaryTable : Bool) : Option (Run DB) :=
  if performCleanup then
    match readClusterList fs config.Cleaner.ClusterListFile with
    | none => none
    | some (clusterList, improperClusterCounter, err) =>
      let calls := [Call.readClusterList config.Cleaner.ClusterListFile]
      if err ≠ none then
        some ⟨err, calls, connection⟩
      else
        let ((deletionsForTable, err), connection) :=
          storage.performCleanupInDB connection clusterList
        let calls := calls ++ [Call.performCleanupInDB clusterList]
        if err ≠ none then
          some ⟨err, calls, connection⟩
        else if printSummaryTable then
          let summary : Summary :=
            { ProperClusterEntries := clusterList.len
              ImproperClusterEntries := improperClusterCounter
              DeletionsForTable := deletionsForTable }
          some ⟨none, calls ++ [Call.PrintSummaryTable summary], connection⟩
        else
          some ⟨none, calls, connection⟩
  else if fillInDatabase then
    let (err, connection) := storage.fillInDatabaseByTestData connection
    let calls := [Call.fillInDatabaseByTestData]
    if err ≠ none then
      some ⟨err, calls, connection⟩
    else
      some ⟨none, calls, connection⟩
  else
    let (err, connection) := storage.displayAllOldRecords connection config.Cleaner.MaxAge
    let calls := [Call.displayAllOldRecords config.Cleaner.MaxAge]
    if err ≠ none then
      some ⟨err, calls, connection⟩
    else
      some ⟨none, calls, connection⟩

/-! ## The notions the specification uses -/

/-- The content of a text file whose lines, each without a line feed, are
`lines`, every one of them terminated by a line feed (byte 10). -/
def joinLines : List GoString → GoString
  | [] => []
  | l :: ls => l ++ 10 :: joinLines ls

/-- A hexadecimal digit of either case: `0`..`9`, `a`..`f`, `A`..`F`. -/
def isHexDigit (b : Nat) : Bool :=
  (decide (48 ≤ b) && decide (b ≤ 57)) || (decide (97 ≤ b) && decide (b ≤ 102)) ||
    (decide (65 ≤ b) && decide (b ≤ 70))

/-- The first 36 bytes of `s` are hyphens (byte 45) at the positions 8, 13, 18
and 23 and hexadecimal digits at every other position. -/
def uuidShape (s : GoString) : Prop :=
  ∀ i, i < 36 →
    if i = 8 ∨ i = 13 ∨ i = 18 ∨ i = 23 then s.getD i 0 = 45
    else isHexDigit (s.getD i 0) = true

instance (s : GoString) : Decidable (uuidShape s) := by
  unfold uuidShape
  infer_instance

/-- The canonical textual form of a UUID: exactly 36 bytes, hyphens at the
positions 8, 13, 18 and 23, hexadecimal digits of either case elsewhere. -/
def isCanonicalUUID (s : GoString) : Prop := s.length = 36 ∧ uuidShape s

instance (s : GoString) : Decidable (isCanonicalUUID s) := by
  unfold isCanonicalUUID
  infer_instance

/-- A whitespace byte other than the line feed: space, tab or carriage
return. -/
def isBlank (b : Nat) : Bool := b == 32 || b == 9 || b == 13

/-- The 45-byte form `uuid.Parse` accepts: `urn:uuid:` in either case, then
the 36 bytes of the canonical form. -/
def isUrnUUID (s : GoString) : Prop :=
  s.length = 45 ∧ uuid.isUrnHead (s.take 9) = true ∧ uuidShape (s.drop 9)

/-- The 38-byte form `uuid.Parse` accepts: any one byte, the 36 bytes of the
canonical form, any one byte (written for a UUID between braces; the two outer
bytes are not examined). -/
def isEnclosedUUID (s : GoString) : Prop := s.length = 38 ∧ uuidShape (s.drop 1)

/-- The 32-byte form `uuid.Parse` accepts: 32 hexadecimal digits, no hyphen. -/
def isRawHexUUID (s : GoString) : Prop :=
  s.length = 32 ∧ ∀ i, i < 32 → isHexDigit (s.getD i 0) = true

/-- The three modes of the tool. -/
inductive Mode where
  | cleanup
  | seeding
  | inspection
  deriving DecidableEq, Repr

/-- The mode a call belongs to: reading the cluster list, deleting and printing
the summary are the cleanup path, `fillInDatabaseByTestData` is the seeding of
test data, `displayAllOldRecords` is the inspection path. -/
def Call.mode : Call → Mode
  | .readClusterList _ => .cleanup
  | .performCleanupInDB _ => .cleanup
  | .PrintSummaryTable _ => .cleanup
  | .fillInDatabaseByTestData => .seeding
  | .displayAllOldRecords _ => .inspection

/-- The mode the flags select, in the words of the specification: cleanup when
`cleanup` is set, seeding when `cleanup` is unset and `fill-in-db` is set,
inspection when neither is set. -/
def selectedMode (cleanup fillIn : Bool) : Mode :=
  if cleanup then .cleanup else if fillIn then .seeding else .inspection

/-! ## Concrete inputs -/

/-- A canonical UUID. -/
def uuidA : GoString := ascii "5d5892d3-1f74-4ccf-91af-548dfc9767aa"

/-- A file system with the one file `clusters.txt`, which has the content
`data` and is read to its end or up to the error `fail`. -/
def fsWith (data : GoString) (fail : GoError) : os.FileSystem where
  Open := fun name =>
    if name = "clusters.txt" then .ok ⟨data, fail⟩
    else .error (.other "open: no such file or directory")

/-- A file system without any file. -/
def fsEmpty : os.FileSystem where
  Open := fun _ => .error (.other "open: no such file or directory")

/-- A configuration that names `clusters.txt`. -/
def configA : ConfigStruct := ⟨⟨"90 days", "clusters.txt"⟩⟩

/-- A storage over a database that is just a number of rows per cluster:
cleanup deletes the rows of every listed cluster from the table `report`. -/
def storageOK : Storage Nat where
  performCleanupInDB := fun db cl => ((some [(ascii "report", cl.len * db)], none), 0)
  fillInDatabaseByTestData := fun db => (none, db + 1)
  displayAllOldRecords := fun db _ => (none, db)

/-- A storage every operation of which fails. -/
def storageDown : Storage Nat where
  performCleanupInDB := fun db _ => ((none, some (.other "connection refused")), db)
  fillInDatabaseByTestData := fun db => (some (.other "connection refused"), db)
  displayAllOldRecords := fun db _ => (some (.other "connection refused"), db)

/-! ## The cluster list reader -/

/-- A line and its line feed are split off the front of the buffer. -/
theorem splitAfter_line (l rest : GoString) (h : 10 ∉ l) :
    bufio.splitAfter 10 (l ++ 10 :: rest) = some (l ++ [10], rest) := by
  induction l with
  | nil => simp [bufio.splitAfter]
  | cons b bs ih =>
    have hb : b ≠ 10 := fun hb => h (by simp [hb])
    have hbs : 10 ∉ bs := fun hbs => h (by simp [hbs])
    simp [bufio.splitAfter, hb, ih hbs]

/-- Without a line feed in the buffer there is nothing to split off. -/
theorem splitAfter_none (t : GoString) (h : 10 ∉ t) : bufio.splitAfter 10 t = none := by
  induction t with
  | nil => simp [bufio.splitAfter]
  | cons b bs ih =>
    have hb : b ≠ 10 := fun hb => h (by simp [hb])
    have hbs : 10 ∉ bs := fun hbs => h (by simp [hbs])
    simp [bufio.splitAfter, hb, ih hbs]

/-- What remains after a split is shorter than the buffer was. -/
theorem splitAfter_shorter (d : Nat) (s line rest : GoString)
    (h : bufio.splitAfter d s = some (line, rest)) : rest.length < s.length := by
  induction s generalizing line rest with
  | nil => simp [bufio.splitAfter] at h
  | cons b bs ih =>
    simp only [bufio.splitAfter] at h
    split at h
    · simp only [Option.some.injEq, Prod.mk.injEq] at h
      simp [← h.2]
    · split at h
      · rename_i line1 rest1 heq
        simp only [Option.some.injEq, Prod.mk.injEq] at h
        have := ih line1 rest1 heq
        simp only [List.length_cons, ← h.2]
        omega
      · simp at h

/-- Trimming the line feed off a line gives the line. -/
theorem Trim_line (l : GoString) (h : 10 ∉ l) : strings.Trim (l ++ [10]) 10 = l := by
  have hall : ∀ b ∈ l, ¬ ((b == 10) = true) := by
    intro b hb hb10
    simp only [beq_iff_eq] at hb10
    exact h (hb10 ▸ hb)
  have hr : strings.trimRightByte (l ++ [10]) 10 = l := by
    unfold strings.trimRightByte
    rw [List.rdropWhile_concat_pos _ _ _ (by simp)]
    rw [List.rdropWhile_eq_self_iff]
    intro hl
    exact hall _ (List.getLast_mem hl)
  unfold strings.Trim strings.trimLeftByte
  rw [hr, List.dropWhile_eq_self_iff]
  intro hl
  exact hall _ (List.getElem_mem _)

/-- The loop on a reader that holds the lines `lines`, each terminated by a
line feed, followed by `tail` without a line feed: every line is classified,
`tail` is not. -/
theorem readLoop_lines (e : GoError) (tail : GoString) (htail : 10 ∉ tail) :
    ∀ (lines : List GoString) (fuel : Nat) (cl : List ClusterName) (n : Int),
      (∀ l ∈ lines, 10 ∉ l) → (joinLines lines ++ tail).length < fuel →
      readLoop fuel ⟨joinLines lines ++ tail, e⟩ (some cl) n =
        some (some (cl ++ lines.filter IsValidUUID),
          n + ((lines.filter (fun l => !IsValidUUID l)).length : Int)) := by
  intro lines
  induction lines with
  | nil =>
    intro fuel cl n _ hfuel
    cases fuel with
    | zero => simp at hfuel
    | succ fuel =>
      simp [readLoop, bufio.Reader.ReadString, joinLines, splitAfter_none tail htail]
  | cons l ls ih =>
    intro fuel cl n hlf hfuel
    have hl : 10 ∉ l := hlf l (by simp)
    have hls : ∀ l ∈ ls, 10 ∉ l := fun x hx => hlf x (by simp [hx])
    cases fuel with
    | zero => simp at hfuel
    | succ fuel =>
      have hsplit : bufio.splitAfter 10 (joinLines (l :: ls) ++ tail) =
          some (l ++ [10], joinLines ls ++ tail) := by
        have := splitAfter_line l (joinLines ls ++ tail) hl
        simpa [joinLines] using this
      have hfuel2 : (joinLines ls ++ tail).length < fuel := by
        simp only [joinLines, List.length_append, List.length_cons] at hfuel ⊢
        omega
      simp only [readLoop, bufio.Reader.ReadString, hsplit, Trim_line l hl]
      by_cases hv : IsValidUUID l = true
      · simp [hv, Slice.append, ih fuel (cl ++ [l]) n hls hfuel2]
      · simp only [Bool.not_eq_true] at hv
        simp [hv, ih fuel cl (n + 1) hls hfuel2]
        omega

/-- The loop ends: with more fuel than the reader holds bytes it gives a
result. -/
theorem readLoop_total : ∀ (fuel : Nat) (r : bufio.Reader) (cl : ClusterList) (n : Int),
    r.buf.length < fuel → ∃ res, readLoop fuel r cl n = some res := by
  intro fuel
  induction fuel with
  | zero => intro r cl n h; simp at h
  | succ fuel ih =>
    intro r cl n h
    simp only [readLoop, bufio.Reader.ReadString]
    cases hs : bufio.splitAfter 10 r.buf with
    | none => simp
    | some p =>
      obtain ⟨line, rest⟩ := p
      have hlt := splitAfter_shorter 10 r.buf line rest hs
      have hfuel : rest.length < fuel := by omega
      simp only
      split
      · exact ih ⟨rest, r.err⟩ _ _ hfuel
      · exact ih ⟨rest, r.err⟩ _ _ hfuel

/-- The function `readClusterList` returns, whatever the file system holds. -/
theorem readClusterList_total (fs : os.FileSystem) (filename : String) :
    ∃ res, readClusterList fs filename = some res := by
  unfold readClusterList
  cases fs.Open filename with
  | error err => simp
  | ok file =>
    obtain ⟨res, hres⟩ := readLoop_total (file.data.length + 1) (bufio.NewReader file)
      (some []) 0 (by simp [bufio.NewReader])
    simp [hres]

/-- What `readClusterList` returns for a file that opens and whose reads
deliver the lines `lines`, each terminated by a line feed, then `tail` without
a line feed, and then end with the error `e`. -/
theorem readClusterList_file (fs : os.FileSystem) (filename : String) (e : GoError)
    (lines : List GoString) (tail : GoString)
    (hopen : fs.Open filename = .ok ⟨joinLines lines ++ tail, e⟩)
    (hlf : ∀ l ∈ lines, 10 ∉ l) (htail : 10 ∉ tail) :
    readClusterList fs filename =
      some (some (lines.filter IsValidUUID),
        ((lines.filter (fun l => !IsValidUUID l)).length : Int), none) := by
  unfold readClusterList
  have := readLoop_lines e tail htail lines ((joinLines lines ++ tail).length + 1) [] 0 hlf
    (by omega)
  simp only [hopen, bufio.NewReader, this]
  simp

/-! ## The identifier validator -/

/-- The table `xvalues` holds 255 exactly for the bytes that are not
hexadecimal digits. -/
theorem xvalues_ne (b : Nat) : (uuid.xvalues b != 255) = isHexDigit b := by
  unfold uuid.xvalues isHexDigit
  by_cases h1 : 48 ≤ b ∧ b ≤ 57
  · have : b - 48 ≠ 255 := by omega
    simp [h1, this]
  · by_cases h2 : 65 ≤ b ∧ b ≤ 70
    · have : b - 55 ≠ 255 := by omega
      have h3 : ¬ (97 ≤ b ∧ b ≤ 102) := by omega
      simp [h1, h2, this]
    · by_cases h3 : 97 ≤ b ∧ b ≤ 102
      · have : b - 87 ≠ 255 := by omega
        simp [h1, h2, h3, this]
      · simp [h1, h2, h3]
        omega

/-- The flag `xtob` returns: both bytes are hexadecimal digits. -/
theorem xtob_snd (a b : Nat) : (uuid.xtob a b).2 = (isHexDigit a && isHexDigit b) := by
  simp only [uuid.xtob, xvalues_ne]

/-- An index in range reads the same byte with or without a default. -/
theorem get_eq_getD (s : GoString) (i : Nat) (h : i < s.length) :
    s.get ⟨i, h⟩ = s.getD i 0 := by
  rw [List.getD_eq_getElem s 0 h]
  rfl

/-- The loop over the offsets succeeds exactly when every pair of bytes it
reads is a pair of hexadecimal digits. -/
theorem decodeAt_ok (s : GoString) (h : 36 ≤ s.length) (xs : List (Fin 35)) :
    (∃ v, uuid.decodeAt s h xs = .ok v) ↔
      ∀ x ∈ xs, isHexDigit (s.getD x.val 0) = true ∧ isHexDigit (s.getD (x.val + 1) 0) = true := by
  induction xs with
  | nil => simp [uuid.decodeAt]
  | cons x xs ih =>
    have hsnd := xtob_snd (s.getD x.val 0) (s.getD (x.val + 1) 0)
    simp only [uuid.decodeAt, get_eq_getD]
    rcases hx : uuid.xtob (s.getD x.val 0) (s.getD (x.val + 1) 0) with ⟨v, ok⟩
    rw [hx] at hsnd
    simp only [List.mem_cons, forall_eq_or_imp]
    cases ok with
    | false =>
      constructor
      · rintro ⟨w, hw⟩
        cases hw
      · rintro ⟨⟨ha, hb⟩, _⟩
        rw [ha, hb] at hsnd
        cases hsnd
    | true =>
      have hc : isHexDigit (s.getD x.val 0) = true ∧ isHexDigit (s.getD (x.val + 1) 0) = true := by
        simpa only [Bool.and_eq_true] using hsnd.symm
      rw [← ih]
      cases uuid.decodeAt s h xs with
      | ok vs => exact ⟨fun _ => ⟨hc, vs, rfl⟩, fun _ => ⟨v :: vs, rfl⟩⟩
      | error e =>
        constructor
        · rintro ⟨w, hw⟩
          cases hw
        · rintro ⟨_, w, hw⟩
          cases hw

/-- The loop of `case 32` succeeds exactly when every pair of bytes it reads is
a pair of hexadecimal digits. -/
theorem decodeRaw_ok (s : GoString) (h : 32 ≤ s.length) (xs : List (Fin 16)) :
    (∃ v, uuid.decodeRaw s h xs = .ok v) ↔
      ∀ x ∈ xs, isHexDigit (s.getD (x.val * 2) 0) = true ∧
        isHexDigit (s.getD (x.val * 2 + 1) 0) = true := by
  induction xs with
  | nil => simp [uuid.decodeRaw]
  | cons x xs ih =>
    have hsnd := xtob_snd (s.getD (x.val * 2) 0) (s.getD (x.val * 2 + 1) 0)
    simp only [uuid.decodeRaw, get_eq_getD]
    rcases hx : uuid.xtob (s.getD (x.val * 2) 0) (s.getD (x.val * 2 + 1) 0) with ⟨v, ok⟩
    rw [hx] at hsnd
    simp only [List.mem_cons, forall_eq_or_imp]
    cases ok with
    | false =>
      constructor
      · rintro ⟨w, hw⟩
        cases hw
      · rintro ⟨⟨ha, hb⟩, _⟩
        rw [ha, hb] at hsnd
        cases hsnd
    | true =>
      have hc : isHexDigit (s.getD (x.val * 2) 0) = true ∧
          isHexDigit (s.getD (x.val * 2 + 1) 0) = true := by
        simpa only [Bool.and_eq_true] using hsnd.symm
      rw [← ih]
      cases uuid.decodeRaw s h xs with
      | ok vs => exact ⟨fun _ => ⟨hc, vs, rfl⟩, fun _ => ⟨v :: vs, rfl⟩⟩
      | error e =>
        constructor
        · rintro ⟨w, hw⟩
          cases hw
        · rintro ⟨_, w, hw⟩
          cases hw

/-- The shape of a UUID, position by position, is what `Parse` tests: the four
hyphens and the sixteen pairs of digits. -/
theorem uuidShape_iff (s : GoString) :
    uuidShape s ↔
      (s.getD 8 0 = 45 ∧ s.getD 13 0 = 45 ∧ s.getD 18 0 = 45 ∧ s.getD 23 0 = 45) ∧
        ∀ x ∈ uuid.offsets,
          isHexDigit (s.getD x.val 0) = true ∧ isHexDigit (s.getD (x.val + 1) 0) = true := by
  unfold uuidShape
  simp only [Nat.forall_lt_succ, Nat.not_lt_zero, false_implies, implies_true, true_and]
  simp [-List.getD_eq_getElem?_getD, uuid.offsets]
  tauto

/-- The common part of `Parse` succeeds exactly on the shape of a UUID. -/
theorem parseHyphenated_ok (s : GoString) (h : 36 ≤ s.length) :
    (∃ v, uuid.parseHyphenated s h = .ok v) ↔ uuidShape s := by
  rw [uuidShape_iff]
  simp only [uuid.parseHyphenated, get_eq_getD]
  by_cases hh : s.getD 8 0 ≠ 45 ∨ s.getD 13 0 ≠ 45 ∨ s.getD 18 0 ≠ 45 ∨ s.getD 23 0 ≠ 45
  · rw [if_pos hh]
    constructor
    · rintro ⟨w, hw⟩
      cases hw
    · rintro ⟨⟨h8, h13, h18, h23⟩, _⟩
      rcases hh with hh | hh | hh | hh <;> contradiction
  · rw [if_neg hh, decodeAt_ok]
    have h8 : s.getD 8 0 = 45 := by
      by_contra hc
      exact hh (Or.inl hc)
    have h13 : s.getD 13 0 = 45 := by
      by_contra hc
      exact hh (Or.inr (Or.inl hc))
    have h18 : s.getD 18 0 = 45 := by
      by_contra hc
      exact hh (Or.inr (Or.inr (Or.inl hc)))
    have h23 : s.getD 23 0 = 45 := by
      by_contra hc
      exact hh (Or.inr (Or.inr (Or.inr hc)))
    have : s.getD 8 0 = 45 ∧ s.getD 13 0 = 45 ∧ s.getD 18 0 = 45 ∧ s.getD 23 0 = 45 :=
      ⟨h8, h13, h18, h23⟩
    exact ⟨fun hx => ⟨this, hx⟩, fun hx => hx.2⟩

/-- The loop of `case 32` over all sixteen bytes succeeds exactly on 32
hexadecimal digits. -/
theorem decodeRaw_finRange (s : GoString) (h : 32 ≤ s.length) :
    (∃ v, uuid.decodeRaw s h (List.finRange 16) = .ok v) ↔
      ∀ i, i < 32 → isHexDigit (s.getD i 0) = true := by
  rw [decodeRaw_ok]
  constructor
  · intro hall i hi
    have hmem : (⟨i / 2, by omega⟩ : Fin 16) ∈ List.finRange 16 := List.mem_finRange _
    have := hall _ hmem
    simp only at this
    rcases Nat.mod_two_eq_zero_or_one i with hm | hm
    · have : i / 2 * 2 = i := by omega
      simp_all
    · have : i / 2 * 2 + 1 = i := by omega
      simp_all
  · intro hall x _
    exact ⟨hall _ (by have := x.isLt; omega), hall _ (by have := x.isLt; omega)⟩

/-- The strings `IsValidUUID` accepts: `uuid.Parse` succeeds on exactly four
forms. -/
theorem IsValidUUID_iff (s : GoString) :
    IsValidUUID s = true ↔
      isCanonicalUUID s ∨
      (s.length = 45 ∧ uuid.isUrnHead (s.take 9) = true ∧ uuidShape (s.drop 9)) ∨
      (s.length = 38 ∧ uuidShape (s.drop 1)) ∨
      (s.length = 32 ∧ ∀ i, i < 32 → isHexDigit (s.getD i 0) = true) := by
  have hok : ∀ r : Except uuid.ParseError (List Nat),
      (match r with | .ok _ => true | .error _ => false) = true ↔ ∃ v, r = .ok v := by
    intro r
    cases r <;> simp
  unfold IsValidUUID isCanonicalUUID
  rw [hok]
  unfold uuid.Parse
  by_cases h36 : s.length = 36
  · rw [dif_pos h36, parseHyphenated_ok]
    constructor
    · intro hs
      exact Or.inl ⟨h36, hs⟩
    · rintro (⟨_, hs⟩ | ⟨hl, _, _⟩ | ⟨hl, _⟩ | ⟨hl, _⟩)
      · exact hs
      · omega
      · omega
      · omega
  · rw [dif_neg h36]
    by_cases h45 : s.length = 36 + 9
    · rw [dif_pos h45]
      by_cases hu : uuid.isUrnHead (s.take 9) = true
      · rw [hu]
        simp only [Bool.not_true, Bool.false_eq_true, if_false]
        rw [parseHyphenated_ok]
        constructor
        · intro hs
          exact Or.inr (Or.inl ⟨h45, trivial, hs⟩)
        · rintro (⟨hl, _⟩ | ⟨_, _, hs⟩ | ⟨hl, _⟩ | ⟨hl, _⟩)
          · omega
          · exact hs
          · omega
          · omega
      · simp only [Bool.not_eq_true] at hu
        rw [hu]
        simp only [Bool.not_false, if_true]
        constructor
        · rintro ⟨w, hw⟩
          cases hw
        · rintro (⟨hl, _⟩ | ⟨_, hc, _⟩ | ⟨hl, _⟩ | ⟨hl, _⟩)
          · omega
          · cases hc
          · omega
          · omega
    · rw [dif_neg h45]
      by_cases h38 : s.length = 36 + 2
      · rw [dif_pos h38, parseHyphenated_ok]
        constructor
        · intro hs
          exact Or.inr (Or.inr (Or.inl ⟨h38, hs⟩))
        · rintro (⟨hl, _⟩ | ⟨hl, _, _⟩ | ⟨_, hs⟩ | ⟨hl, _⟩)
          · omega
          · omega
          · exact hs
          · omega
      · rw [dif_neg h38]
        by_cases h32 : s.length = 32
        · rw [dif_pos h32, decodeRaw_finRange]
          constructor
          · intro hs
            exact Or.inr (Or.inr (Or.inr ⟨h32, hs⟩))
          · rintro (⟨hl, _⟩ | ⟨hl, _, _⟩ | ⟨hl, _⟩ | ⟨_, hs⟩)
            · omega
            · omega
            · omega
            · exact hs
        · rw [dif_neg h32]
          constructor
          · rintro ⟨w, hw⟩
            cases hw
          · rintro (⟨hl, _⟩ | ⟨hl, _, _⟩ | ⟨hl, _⟩ | ⟨hl, _⟩) <;> omega

/-- Reading a byte of `s[k:]`. -/
theorem getD_drop (l : GoString) (k i : Nat) : (l.drop k).getD i 0 = l.getD (k + i) 0 := by
  simp only [List.getD_eq_getElem?_getD, List.getElem?_drop]

/-- Bytes after the first 36 do not matter to the shape. -/
theorem uuidShape_append (u t : GoString) (h : u.length = 36) :
    uuidShape (u ++ t) ↔ uuidShape u := by
  unfold uuidShape
  constructor
  · intro hs i hi
    have := hs i hi
    rwa [List.getD_append u t 0 i (by omega)] at this
  · intro hs i hi
    rw [List.getD_append u t 0 i (by omega)]
    exact hs i hi

/-- A canonical UUID holds no line feed. -/
theorem canonical_no_LF (u : GoString) (hu : isCanonicalUUID u) : 10 ∉ u := by
  intro hmem
  obtain ⟨i, hi, hget⟩ := List.getElem_of_mem hmem
  have hshape := hu.2 i (by rw [← hu.1]; exact hi)
  rw [List.getD_eq_getElem u 0 hi, hget] at hshape
  split at hshape
  · omega
  · revert hshape
    decide

/-- Blanks are not line feeds. -/
theorem blank_no_LF (w : GoString) (hw : ∀ b ∈ w, isBlank b = true) : 10 ∉ w := by
  intro hmem
  have := hw 10 hmem
  revert this
  decide

/-- A canonical UUID with whitespace around it passes `IsValidUUID` in one case
only: one byte before it and one byte after it, the 38-byte form of which
`uuid.Parse` examines the middle 36 bytes. -/
theorem IsValidUUID_padded (u pre post : GoString) (hu : isCanonicalUUID u)
    (hpre : ∀ b ∈ pre, isBlank b = true) (hne : pre ++ post ≠ []) :
    IsValidUUID (pre ++ u ++ post) = true ↔ pre.length = 1 ∧ post.length = 1 := by
  obtain ⟨hlen, hshape⟩ := hu
  have h7 : isHexDigit (u.getD 7 0) = true := by simpa using hshape 7 (by norm_num)
  have h8 : u.getD 8 0 = 45 := by simpa using hshape 8 (by norm_num)
  have h9 : isHexDigit (u.getD 9 0) = true := by simpa using hshape 9 (by norm_num)
  have hnot : isHexDigit 45 = false := by decide
  have hlpp : 0 < pre.length + post.length := by
    rcases pre with _ | ⟨w, pre⟩
    · rcases post with _ | ⟨p, post⟩
      · exact absurd rfl hne
      · simp only [List.length_cons]
        omega
    · simp only [List.length_cons]
      omega
  have hslen : (pre ++ u ++ post).length = pre.length + 36 + post.length := by
    simp only [List.length_append, hlen]
  rw [IsValidUUID_iff]
  constructor
  · rintro (⟨hl, _⟩ | ⟨hl, hurn, _⟩ | ⟨hl, hs⟩ | ⟨hl, _⟩)
    · omega
    · exfalso
      rcases pre with _ | ⟨w, pre⟩
      · -- the ninth byte is the hyphen of `u`, not a colon
        unfold uuid.isUrnHead at hurn
        have h := congrArg (fun l => l.getD 8 0) (eq_of_beq hurn)
        have hr : (ascii "urn:uuid:").getD 8 0 = 58 := by decide
        have hlt : 8 < (u ++ post).length := by
          simp only [List.length_append, hlen]
          omega
        have hlt9 : 8 < (List.map uuid.lowerByte (List.take 9 (u ++ post))).length := by
          simp only [List.length_map, List.length_take, List.length_append, hlen]
          omega
        simp only [hr, List.nil_append] at h
        rw [List.getD_eq_getElem _ 0 hlt9] at h
        simp only [List.getElem_map, List.getElem_take] at h
        have h8b : (u ++ post).get ⟨8, hlt⟩ = 45 := by
          rw [get_eq_getD, List.getD_append u post 0 8 (by omega)]
          exact h8
        simp only [List.get_eq_getElem] at h8b
        rw [h8b] at h
        revert h
        decide
      · -- the first byte is blank, not a `u`
        have hw : isBlank w = true := hpre w (by simp)
        unfold uuid.isUrnHead at hurn
        have h := congrArg (fun l => l.getD 0 0) (eq_of_beq hurn)
        have hr : (ascii "urn:uuid:").getD 0 0 = 117 := by decide
        simp only [hr, List.cons_append, List.take_succ_cons, List.map_cons,
          List.getD_cons_zero] at h
        have : (w = 32 ∨ w = 9) ∨ w = 13 := by
          simpa [isBlank] using hw
        rcases this with (rfl | rfl) | rfl <;> revert h <;> decide
    · rw [hslen] at hl
      rcases pre with _ | ⟨w, _ | ⟨w2, pre⟩⟩
      · -- two bytes after `u`: position 8 of `s[1:]` is position 9 of `u`
        exfalso
        have := hs 8 (by norm_num)
        simp only [true_or, or_true, if_true, List.nil_append, getD_drop] at this
        rw [List.getD_append u post 0 _ (by omega)] at this
        rw [this] at h9
        rw [h9] at hnot
        cases hnot
      · simp only [List.length_cons, List.length_nil] at hl ⊢
        constructor
        · trivial
        · omega
      · -- two bytes before `u`: position 8 of `s[1:]` is position 7 of `u`
        exfalso
        have := hs 8 (by norm_num)
        simp only [List.length_cons] at hl
        have hpre0 : pre = [] := List.eq_nil_of_length_eq_zero (by omega)
        subst hpre0
        simp only [true_or, or_true, if_true, List.cons_append, List.nil_append,
          List.drop_succ_cons, List.drop_zero, List.getD_cons_succ] at this
        rw [List.getD_append u post 0 _ (by omega)] at this
        rw [this] at h7
        rw [h7] at hnot
        cases hnot
    · omega
  · rintro ⟨h1, h2⟩
    refine Or.inr (Or.inr (Or.inl ⟨by omega, ?_⟩))
    rcases pre with _ | ⟨w, _ | ⟨w2, pre⟩⟩
    · simp at h1
    · simp only [List.cons_append, List.nil_append, List.drop_succ_cons, List.drop_zero]
      exact (uuidShape_append u post hlen).2 hshape
    · simp at h1

/-! ## The summary table -/

/-- Wrapping an intermediate sum does not change the wrapped total. -/
theorem wrapInt_add (a b : Int) : wrapInt (wrapInt a + b) = wrapInt (a + b) := by
  unfold wrapInt
  omega

/-- A wrapped value is a value of the type `int`. -/
theorem wrapInt_idem (a : Int) : wrapInt (wrapInt a) = wrapInt a := by
  unfold wrapInt
  omega

/-- A value that fits the type `int` is not changed. -/
theorem wrapInt_of_fits (x : Int) (h : -(2 ^ 63) ≤ x ∧ x < 2 ^ 63) : wrapInt x = x := by
  unfold wrapInt
  omega

/-- The `range` loop of `PrintSummaryTable` leaves in `totalDeletions` the sum,
in the type `int`, of what it started with and the values it ranged over. -/
theorem foldl_summaryStep_total (order : List (GoString × Int)) :
    ∀ (t : Int) (table : tablewriter.Table), wrapInt t = t →
      (order.foldl summaryStep (t, table)).1 = wrapInt (t + (order.map Prod.snd).sum) := by
  induction order with
  | nil =>
    intro t table ht
    simp [ht]
  | cons entry rest ih =>
    intro t table ht
    obtain ⟨name, v⟩ := entry
    simp only [List.foldl_cons, summaryStep, List.map_cons, List.sum_cons]
    rw [ih _ _ (wrapInt_idem _), wrapInt_add, Int.add_assoc]

/-! ## The claims -/

/-- C1: for a file in which every line is terminated by a line feed,
`readClusterList` returns a nil error, the lines that pass `IsValidUUID`, in
file order and with duplicates kept, and the number of lines that do not pass
it; the empty file (`lines = []`) gives the empty list and the count 0. -/
theorem readClusterList_LF_terminated (fs : os.FileSystem) (filename : String)
    (lines : List GoString)
    (hopen : fs.Open filename = .ok ⟨joinLines lines, .EOF⟩)
    (hlf : ∀ l ∈ lines, 10 ∉ l) :
    readClusterList fs filename =
      some (some (lines.filter IsValidUUID),
        ((lines.filter (fun l => !IsValidUUID l)).length : Int), none) := by
  apply readClusterList_file fs filename .EOF lines [] _ hlf (by simp)
  simpa using hopen

/-- An instance of C1: a file of three lines, the second of which is not a
UUID. -/
theorem readClusterList_LF_terminated_witness :
    (fsWith (joinLines [uuidA, ascii "not-a-uuid", uuidA]) .EOF).Open "clusters.txt" =
        .ok ⟨joinLines [uuidA, ascii "not-a-uuid", uuidA], .EOF⟩ ∧
      (∀ l ∈ [uuidA, ascii "not-a-uuid", uuidA], 10 ∉ l) ∧
      readClusterList (fsWith (joinLines [uuidA, ascii "not-a-uuid", uuidA]) .EOF)
          "clusters.txt" =
        some (some ([uuidA, ascii "not-a-uuid", uuidA].filter IsValidUUID),
          (([uuidA, ascii "not-a-uuid", uuidA].filter (fun l => !IsValidUUID l)).length : Int),
          none) :=
  ⟨rfl, by decide, readClusterList_LF_terminated _ _ _ rfl (by decide)⟩

/-- C2, as the code has it: `IsValidUUID` is true for exactly four forms, the
canonical 36-byte form, the same after `urn:uuid:`, the same between any two
bytes, and 32 hexadecimal digits without hyphens; it is false for the empty
string. (`IsValidUUID` is a total function whose every index carries its bound:
it returns for every string and cannot index out of range.) -/
theorem IsValidUUID_accepted_forms (s : GoString) :
    (IsValidUUID s = true ↔
        isCanonicalUUID s ∨ isUrnUUID s ∨ isEnclosedUUID s ∨ isRawHexUUID s) ∧
      IsValidUUID [] = false :=
  ⟨IsValidUUID_iff s, by decide⟩

/-- C2 fails as stated: 32 hexadecimal digits without hyphens are not in the
canonical form and `IsValidUUID` is true for them. -/
theorem IsValidUUID_raw_hex_counterexample :
    IsValidUUID (ascii "5d5892d31f744ccf91af548dfc9767aa") = true ∧
      ¬ isCanonicalUUID (ascii "5d5892d31f744ccf91af548dfc9767aa") := by
  decide

/-- C3 at a failing input: a file that holds one valid UUID and no line feed
after it. The UUID is neither appended to the list nor counted. -/
theorem readClusterList_drops_unterminated_line :
    IsValidUUID uuidA = true ∧
      readClusterList (fsWith uuidA .EOF) "clusters.txt" = some (some [], 0, none) := by
  decide

/-- C4 at a failing input: the reads deliver one line and a part of the next,
then fail with an input/output error. The error returned is nil. -/
theorem readClusterList_swallows_read_error :
    readClusterList
        (fsWith (uuidA ++ 10 :: ascii "5d5892d3") (.other "read clusters.txt: input/output error"))
        "clusters.txt" =
      some (some [uuidA], 0, none) := by
  decide

/-- C5: when the cluster-list file cannot be opened, `readClusterList` returns
a nil list, the count 0 and the error of the open, and `doSelectedOperation` in
cleanup mode returns that error having called `readClusterList` only: neither
`performCleanupInDB` nor `PrintSummaryTable` is called, and the database is
left as it was. -/
theorem doSelectedOperation_open_error {DB : Type} (fs : os.FileSystem)
    (storage : Storage DB) (config : ConfigStruct) (connection : DB)
    (fillInDatabase printSummaryTable : Bool) (e : GoError)
    (hopen : fs.Open config.Cleaner.ClusterListFile = .error e) :
    readClusterList fs config.Cleaner.ClusterListFile = some (none, 0, some e) ∧
      doSelectedOperation fs storage config connection true fillInDatabase printSummaryTable =
        some ⟨some e, [Call.readClusterList config.Cleaner.ClusterListFile], connection⟩ := by
  have hread : readClusterList fs config.Cleaner.ClusterListFile = some (none, 0, some e) := by
    simp [readClusterList, hopen]
  refine ⟨hread, ?_⟩
  simp [doSelectedOperation, hread]

/-- An instance of C5: a file system without the cluster-list file. -/
theorem doSelectedOperation_open_error_witness :
    fsEmpty.Open configA.Cleaner.ClusterListFile =
        .error (.other "open: no such file or directory") ∧
      (readClusterList fsEmpty configA.Cleaner.ClusterListFile =
          some (none, 0, some (.other "open: no such file or directory")) ∧
        doSelectedOperation fsEmpty storageOK configA 7 true false true =
          some ⟨some (.other "open: no such file or directory"),
            [Call.readClusterList configA.Cleaner.ClusterListFile], 7⟩) :=
  ⟨rfl, doSelectedOperation_open_error fsEmpty storageOK configA 7 false true _ rfl⟩

/-- C6, as the code has it: a line made of a canonical UUID with whitespace
(space, tab, carriage return) before and/or after it reaches `IsValidUUID`
with its whitespace. It is classified as improper, except when exactly one
byte stands before the UUID and exactly one after it: that 38-byte line passes
`IsValidUUID` and is appended to the list, whitespace included. -/
theorem readClusterList_padded_line (fs : os.FileSystem) (filename : String)
    (before after : List GoString) (u pre post : GoString)
    (hopen : fs.Open filename =
      .ok ⟨joinLines (before ++ (pre ++ u ++ post) :: after), .EOF⟩)
    (hbefore : ∀ l ∈ before, 10 ∉ l) (hafter : ∀ l ∈ after, 10 ∉ l)
    (hu : isCanonicalUUID u)
    (hpre : ∀ b ∈ pre, isBlank b = true) (hpost : ∀ b ∈ post, isBlank b = true)
    (hne : pre ++ post ≠ []) :
    readClusterList fs filename =
      some (some (before.filter IsValidUUID ++
            (if pre.length = 1 ∧ post.length = 1 then [pre ++ u ++ post] else []) ++
            after.filter IsValidUUID),
        ((before.filter (fun l => !IsValidUUID l)).length : Int) +
            (if pre.length = 1 ∧ post.length = 1 then 0 else 1) +
            ((after.filter (fun l => !IsValidUUID l)).length : Int),
        none) := by
  have hline : 10 ∉ pre ++ u ++ post := by
    simp only [List.mem_append, not_or]
    exact ⟨⟨blank_no_LF pre hpre, canonical_no_LF u hu⟩, blank_no_LF post hpost⟩
  have hlf : ∀ l ∈ before ++ (pre ++ u ++ post) :: after, 10 ∉ l := by
    intro l hl
    simp only [List.mem_append, List.mem_cons] at hl
    rcases hl with hl | rfl | hl
    · exact hbefore l hl
    · exact hline
    · exact hafter l hl
  have hfile := readClusterList_file fs filename .EOF
    (before ++ (pre ++ u ++ post) :: after) [] (by simpa using hopen) hlf (by simp)
  rw [hfile]
  have hvalid := IsValidUUID_padded u pre post hu hpre hne
  generalize pre ++ u ++ post = line at hvalid ⊢
  by_cases hone : pre.length = 1 ∧ post.length = 1
  · have hv : IsValidUUID line = true := hvalid.2 hone
    have hnv : (!IsValidUUID line) = false := by rw [hv]; rfl
    rw [if_pos hone, if_pos hone, List.filter_append, List.filter_append,
      List.filter_cons_of_pos hv, List.filter_cons_of_neg (by rw [hnv]; exact Bool.false_ne_true),
      List.length_append]
    simp only [Nat.cast_add, Int.add_zero, List.append_assoc, List.singleton_append]
  · have hv : IsValidUUID line = false := by
      cases h : IsValidUUID line with
      | false => rfl
      | true => exact absurd (hvalid.1 h) hone
    have hnv : (!IsValidUUID line) = true := by rw [hv]; rfl
    rw [if_neg hone, if_neg hone, List.filter_append, List.filter_append,
      List.filter_cons_of_neg (by rw [hv]; exact Bool.false_ne_true)]
    simp only [List.filter_cons, hnv, if_true, List.length_append, List.length_cons,
      Nat.cast_add, Nat.cast_one, List.append_nil]
    have harith : ∀ a b : Int, a + (b + 1) = a + 1 + b := by
      intro a b
      omega
    rw [harith]

/-- An instance of C6: a space and a tab before the UUID, a carriage return
after it, between two other lines. -/
theorem readClusterList_padded_line_witness :
    (fsWith (joinLines ([ascii "not-a-uuid"] ++ ([32, 9] ++ uuidA ++ [13]) :: [uuidA])) .EOF).Open
          "clusters.txt" =
        .ok ⟨joinLines ([ascii "not-a-uuid"] ++ ([32, 9] ++ uuidA ++ [13]) :: [uuidA]), .EOF⟩ ∧
      (∀ l ∈ [ascii "not-a-uuid"], 10 ∉ l) ∧ (∀ l ∈ [uuidA], 10 ∉ l) ∧
      isCanonicalUUID uuidA ∧
      (∀ b ∈ [32, 9], isBlank b = true) ∧ (∀ b ∈ [13], isBlank b = true) ∧
      [32, 9] ++ [13] ≠ ([] : GoString) ∧
      readClusterList
          (fsWith (joinLines ([ascii "not-a-uuid"] ++ ([32, 9] ++ uuidA ++ [13]) :: [uuidA])) .EOF)
          "clusters.txt" =
        some (some ([ascii "not-a-uuid"].filter IsValidUUID ++
              (if [32, 9].length = 1 ∧ [13].length = 1 then [[32, 9] ++ uuidA ++ [13]] else []) ++
              [uuidA].filter IsValidUUID),
          (([ascii "not-a-uuid"].filter (fun l => !IsValidUUID l)).length : Int) +
              (if [32, 9].length = 1 ∧ [13].length = 1 then 0 else 1) +
              (([uuidA].filter (fun l => !IsValidUUID l)).length : Int),
          none) :=
  ⟨rfl, by decide, by decide, by decide, by decide, by decide, by decide,
    readClusterList_padded_line _ _ [ascii "not-a-uuid"] [uuidA] uuidA [32, 9] [13] rfl
      (by decide) (by decide) (by decide) (by decide) (by decide) (by decide)⟩

/-- C6 fails as stated: the line made of a canonical UUID with one space before
it and one space after it is appended to the list, spaces included, and is not
counted as improper. -/
theorem readClusterList_padded_counterexample :
    isCanonicalUUID uuidA ∧ isBlank 32 = true ∧
      readClusterList (fsWith (joinLines [[32] ++ uuidA ++ [32]]) .EOF) "clusters.txt" =
        some (some [[32] ++ uuidA ++ [32]], 0, none) := by
  decide

/-- C7: the second cell of the footer of the summary table is the sum of the
values of `DeletionsForTable`, taken in the type `int`, whatever the order in
which the map is ranged over and whatever the two entry counts are; it is the
exact sum whenever that fits the type `int`, and 0 for a map without
entries, nil or empty. -/
theorem PrintSummaryTable_total_deletions (summary : Summary)
    (order : List (GoString × Int))
    (hperm : order.Perm summary.DeletionsForTable.entries) :
    (PrintSummaryTable summary order).footer =
        [ascii "Total deletions", strconv.Itoa (wrapInt summary.DeletionsForTable.values.sum)] ∧
      (-(2 ^ 63) ≤ summary.DeletionsForTable.values.sum ∧
          summary.DeletionsForTable.values.sum < 2 ^ 63 →
        (PrintSummaryTable summary order).footer =
          [ascii "Total deletions", strconv.Itoa summary.DeletionsForTable.values.sum]) ∧
      (summary.DeletionsForTable.entries = [] →
        (PrintSummaryTable summary order).footer = [ascii "Total deletions", strconv.Itoa 0]) := by
  have hsum : (order.map Prod.snd).sum = summary.DeletionsForTable.values.sum :=
    (hperm.map Prod.snd).sum_eq
  have hfooter : (PrintSummaryTable summary order).footer =
      [ascii "Total deletions",
        strconv.Itoa (wrapInt summary.DeletionsForTable.values.sum)] := by
    have h := foldl_summaryStep_total order 0
      ((((tablewriter.NewWriter.SetColWidth 60).SetHeader [ascii "Summary", ascii "Count"]).Append
        [ascii "Proper cluster entries", strconv.Itoa summary.ProperClusterEntries]).Append
        [ascii "Improper cluster entries", strconv.Itoa summary.ImproperClusterEntries])
      (by decide)
    rw [Int.zero_add, hsum] at h
    simp only [PrintSummaryTable, tablewriter.Table.SetFooter]
    rw [h]
  refine ⟨hfooter, ?_, ?_⟩
  · intro hfits
    rw [hfooter, wrapInt_of_fits _ hfits]
  · intro hnone
    rw [hfooter]
    simp only [GoMap.values, hnone, List.map_nil, List.sum_nil]
    rfl

/-- An instance of C7: a map of two tables, ranged over in the other order. -/
theorem PrintSummaryTable_total_deletions_witness :
    [(ascii "rule_hit", (4 : Int)), (ascii "report", 3)].Perm
        (GoMap.entries (Summary.mk 1 2 (some [(ascii "report", 3), (ascii "rule_hit", 4)])).DeletionsForTable) ∧
      ((PrintSummaryTable ⟨1, 2, some [(ascii "report", 3), (ascii "rule_hit", 4)]⟩
            [(ascii "rule_hit", 4), (ascii "report", 3)]).footer =
          [ascii "Total deletions",
            strconv.Itoa (wrapInt (GoMap.values (Summary.mk 1 2
              (some [(ascii "report", 3), (ascii "rule_hit", 4)])).DeletionsForTable).sum)] ∧
        (-(2 ^ 63) ≤ (GoMap.values (Summary.mk 1 2
              (some [(ascii "report", 3), (ascii "rule_hit", 4)])).DeletionsForTable).sum ∧
            (GoMap.values (Summary.mk 1 2
              (some [(ascii "report", 3), (ascii "rule_hit", 4)])).DeletionsForTable).sum < 2 ^ 63 →
          (PrintSummaryTable ⟨1, 2, some [(ascii "report", 3), (ascii "rule_hit", 4)]⟩
              [(ascii "rule_hit", 4), (ascii "report", 3)]).footer =
            [ascii "Total deletions",
              strconv.Itoa (GoMap.values (Summary.mk 1 2
                (some [(ascii "report", 3), (ascii "rule_hit", 4)])).DeletionsForTable).sum]) ∧
        ((GoMap.entries (Summary.mk 1 2
              (some [(ascii "report", 3), (ascii "rule_hit", 4)])).DeletionsForTable) = [] →
          (PrintSummaryTable ⟨1, 2, some [(ascii "report", 3), (ascii "rule_hit", 4)]⟩
              [(ascii "rule_hit", 4), (ascii "report", 3)]).footer =
            [ascii "Total deletions", strconv.Itoa 0])) :=
  ⟨by decide, PrintSummaryTable_total_deletions _ _ (by decide)⟩

/-- The part of C8 that `doSelectedOperation` itself keeps: in cleanup mode,
when `readClusterList` returns an error, or returns a nil error and
`performCleanupInDB` then returns an error, `doSelectedOperation` returns that
error and does not call `PrintSummaryTable`, whatever the summary flag is. -/
theorem doSelectedOperation_returned_error {DB : Type} (fs : os.FileSystem)
    (storage : Storage DB) (config : ConfigStruct) (connection : DB)
    (fillInDatabase printSummaryTable : Bool) (clusterList : ClusterList) (improper : Int)
    (e : GoError)
    (hfail : readClusterList fs config.Cleaner.ClusterListFile =
          some (clusterList, improper, some e) ∨
        (readClusterList fs config.Cleaner.ClusterListFile = some (clusterList, improper, none) ∧
          (storage.performCleanupInDB connection clusterList).1.2 = some e)) :
    ∃ run, doSelectedOperation fs storage config connection true fillInDatabase
          printSummaryTable = some run ∧
      run.err = some e ∧ ∀ summary, Call.PrintSummaryTable summary ∉ run.calls := by
  rcases hfail with hread | ⟨hread, hclean⟩
  · refine ⟨⟨some e, [Call.readClusterList config.Cleaner.ClusterListFile], connection⟩, ?_,
      rfl, ?_⟩
    · simp [doSelectedOperation, hread]
    · intro summary
      simp
  · rcases hres : storage.performCleanupInDB connection clusterList with ⟨⟨m, err⟩, db⟩
    rw [hres] at hclean
    simp only at hclean
    subst hclean
    refine ⟨⟨some e, [Call.readClusterList config.Cleaner.ClusterListFile,
      Call.performCleanupInDB clusterList], db⟩, ?_, rfl, ?_⟩
    · simp [doSelectedOperation, hread, hres]
    · intro summary
      simp

/-- The error `readClusterList` returns is the error of the open, and no
other: a read that fails after the open is never reported. -/
theorem readClusterList_error_is_open_error (fs : os.FileSystem) (filename : String)
    (clusterList : ClusterList) (improper : Int) (e : GoError)
    (h : readClusterList fs filename = some (clusterList, improper, some e)) :
    fs.Open filename = .error e := by
  unfold readClusterList at h
  cases hopen : fs.Open filename with
  | error err =>
    rw [hopen] at h
    simp only [Option.some.injEq, Prod.mk.injEq] at h
    rw [h.2.2]
  | ok file =>
    rw [hopen] at h
    simp only at h
    split at h
    · cases h
    · simp only [Option.some.injEq, Prod.mk.injEq] at h
      exact absurd h.2.2 (by simp)

/-- C8 at a failing input: cleanup with the summary flag set, on a file whose
reads deliver one line and a part of the next and then fail with an
input/output error. The read stage has failed, and `doSelectedOperation`
returns nil, deletes for the one identifier read so far and prints the
summary. -/
theorem doSelectedOperation_summary_after_read_error :
    (doSelectedOperation
        (fsWith (uuidA ++ 10 :: ascii "5d5892d3") (.other "read clusters.txt: input/output error"))
        storageOK configA 7 true false true).map (fun run => (run.err, run.calls, run.db)) =
      some (none,
        [Call.readClusterList "clusters.txt", Call.performCleanupInDB (some [uuidA]),
          Call.PrintSummaryTable ⟨1, 0, some [(ascii "report", 7)]⟩],
        0) := by
  decide

/-- C9: whatever the three flags are, `doSelectedOperation` returns, and its
run is the run of the one mode the flags select and of nothing else.
With `cleanup` set (whatever `fill-in-db` is) it reads the cluster list; if
that returns an error the run ends there, with that error and the database
untouched; otherwise it calls `performCleanupInDB` on the list, and the error
it returns and the state of the database are those `performCleanupInDB` gave,
with `PrintSummaryTable` called after it exactly when it gave no error and the
summary flag is set. With `cleanup` unset and `fill-in-db` set the run is the
one call `fillInDatabaseByTestData`: its error, its database. With neither set
the run is the one call `displayAllOldRecords`: its error, its database.
Every call belongs to the selected mode; `displayAllOldRecords` is called if
and only if neither flag is set, and then neither `readClusterList` nor
`performCleanupInDB` is called. -/
theorem doSelectedOperation_one_mode {DB : Type} (fs : os.FileSystem)
    (storage : Storage DB) (config : ConfigStruct) (connection : DB)
    (performCleanup fillInDatabase printSummaryTable : Bool) :
    ∃ run, doSelectedOperation fs storage config connection performCleanup fillInDatabase
          printSummaryTable = some run ∧
      run.calls ≠ [] ∧
      (∀ c ∈ run.calls, c.mode = selectedMode performCleanup fillInDatabase) ∧
      (performCleanup = true →
        ∃ clusterList improper readErr,
          readClusterList fs config.Cleaner.ClusterListFile =
            some (clusterList, improper, readErr) ∧
          (readErr ≠ none →
            run.err = readErr ∧
            run.calls = [Call.readClusterList config.Cleaner.ClusterListFile] ∧
            run.db = connection) ∧
          (readErr = none →
            run.err = (storage.performCleanupInDB connection clusterList).1.2 ∧
            run.db = (storage.performCleanupInDB connection clusterList).2 ∧
            run.calls =
              [Call.readClusterList config.Cleaner.ClusterListFile,
                  Call.performCleanupInDB clusterList] ++
                (if (storage.performCleanupInDB connection clusterList).1.2 = none ∧
                    printSummaryTable = true then
                  [Call.PrintSummaryTable ⟨clusterList.len, improper,
                    (storage.performCleanupInDB connection clusterList).1.1⟩]
                else []))) ∧
      (performCleanup = false ∧ fillInDatabase = true →
        run.err = (storage.fillInDatabaseByTestData connection).1 ∧
        run.calls = [Call.fillInDatabaseByTestData] ∧
        run.db = (storage.fillInDatabaseByTestData connection).2) ∧
      (performCleanup = false ∧ fillInDatabase = false →
        run.err = (storage.displayAllOldRecords connection config.Cleaner.MaxAge).1 ∧
        run.calls = [Call.displayAllOldRecords config.Cleaner.MaxAge] ∧
        run.db = (storage.displayAllOldRecords connection config.Cleaner.MaxAge).2) ∧
      ((∃ maxAge, Call.displayAllOldRecords maxAge ∈ run.calls) ↔
        (performCleanup = false ∧ fillInDatabase = false)) := by
  cases performCleanup with
  | true =>
    obtain ⟨⟨cl, n, err⟩, hread⟩ := readClusterList_total fs config.Cleaner.ClusterListFile
    cases err with
    | some e =>
      refine ⟨⟨some e, [Call.readClusterList config.Cleaner.ClusterListFile], connection⟩,
        ?_, ?_, ?_, ?_, ?_, ?_, ?_⟩
      · simp [doSelectedOperation, hread]
      · simp
      · simp [Call.mode, selectedMode]
      · intro _
        exact ⟨cl, n, some e, hread, fun _ => ⟨rfl, rfl, rfl⟩, fun h => by cases h⟩
      · simp
      · simp
      · simp
    | none =>
      rcases hres : storage.performCleanupInDB connection cl with ⟨⟨m, err⟩, db⟩
      cases err with
      | some e =>
        refine ⟨⟨some e, [Call.readClusterList config.Cleaner.ClusterListFile,
          Call.performCleanupInDB cl], db⟩, ?_, ?_, ?_, ?_, ?_, ?_, ?_⟩
        · simp [doSelectedOperation, hread, hres]
        · simp
        · simp [Call.mode, selectedMode]
        · intro _
          refine ⟨cl, n, none, hread, fun h => absurd rfl h, fun _ => ?_⟩
          rw [hres]
          simp
        · simp
        · simp
        · simp
      | none =>
        cases printSummaryTable with
        | true =>
          refine ⟨⟨none, [Call.readClusterList config.Cleaner.ClusterListFile,
            Call.performCleanupInDB cl, Call.PrintSummaryTable ⟨cl.len, n, m⟩], db⟩,
            ?_, ?_, ?_, ?_, ?_, ?_, ?_⟩
          · simp [doSelectedOperation, hread, hres]
          · simp
          · simp [Call.mode, selectedMode]
          · intro _
            refine ⟨cl, n, none, hread, fun h => absurd rfl h, fun _ => ?_⟩
            rw [hres]
            simp
          · simp
          · simp
          · simp
        | false =>
          refine ⟨⟨none, [Call.readClusterList config.Cleaner.ClusterListFile,
            Call.performCleanupInDB cl], db⟩, ?_, ?_, ?_, ?_, ?_, ?_, ?_⟩
          · simp [doSelectedOperation, hread, hres]
          · simp
          · simp [Call.mode, selectedMode]
          · intro _
            refine ⟨cl, n, none, hread, fun h => absurd rfl h, fun _ => ?_⟩
            rw [hres]
            simp
          · simp
          · simp
          · simp
  | false =>
    cases fillInDatabase with
    | true =>
      rcases hres : storage.fillInDatabaseByTestData connection with ⟨err, db⟩
      refine ⟨⟨err, [Call.fillInDatabaseByTestData], db⟩, ?_, ?_⟩
      · cases err <;> simp [doSelectedOperation, hres]
      · simp [Call.mode, selectedMode]
    | false =>
      rcases hres : storage.displayAllOldRecords connection config.Cleaner.MaxAge with ⟨err, db⟩
      refine ⟨⟨err, [Call.displayAllOldRecords config.Cleaner.MaxAge], db⟩, ?_, ?_⟩
      · cases err <;> simp [doSelectedOperation, hres]
      · simp [Call.mode, selectedMode]

/-- C10: in cleanup mode, when `readClusterList` and `performCleanupInDB` both
return a nil error, `doSelectedOperation` returns nil; with the summary flag
set it calls `PrintSummaryTable` once, after the two other calls, with the
length of the list, the improper count and the map `performCleanupInDB`
returned; with the flag unset it does not call it. -/
theorem doSelectedOperation_summary {DB : Type} (fs : os.FileSystem)
    (storage : Storage DB) (config : ConfigStruct) (connection db : DB)
    (fillInDatabase printSummaryTable : Bool) (clusterList : ClusterList) (improper : Int)
    (deletionsForTable : GoMap)
    (hread : readClusterList fs config.Cleaner.ClusterListFile =
      some (clusterList, improper, none))
    (hclean : storage.performCleanupInDB connection clusterList =
      ((deletionsForTable, none), db)) :
    doSelectedOperation fs storage config connection true fillInDatabase printSummaryTable =
      some ⟨none,
        [Call.readClusterList config.Cleaner.ClusterListFile,
            Call.performCleanupInDB clusterList] ++
          (if printSummaryTable = true then
            [Call.PrintSummaryTable ⟨clusterList.len, improper, deletionsForTable⟩]
          else []),
        db⟩ := by
  cases printSummaryTable <;> simp [doSelectedOperation, hread, hclean]

/-- An instance of C10: one valid and one invalid line, seven rows deleted,
summary flag set. -/
theorem doSelectedOperation_summary_witness :
    readClusterList (fsWith (joinLines [uuidA, ascii "not-a-uuid"]) .EOF)
        configA.Cleaner.ClusterListFile = some (some [uuidA], 1, none) ∧
      storageOK.performCleanupInDB 7 (some [uuidA]) =
        ((some [(ascii "report", 7)], none), 0) ∧
      doSelectedOperation (fsWith (joinLines [uuidA, ascii "not-a-uuid"]) .EOF) storageOK
          configA 7 true false true =
        some ⟨none,
          [Call.readClusterList configA.Cleaner.ClusterListFile,
              Call.performCleanupInDB (some [uuidA])] ++
            (if true = true then
              [Call.PrintSummaryTable ⟨Slice.len (some [uuidA]), 1, some [(ascii "report", 7)]⟩]
            else []),
          0⟩ :=
  ⟨by decide, by decide,
    doSelectedOperation_summary _ storageOK configA 7 0 false true (some [uuidA]) 1
      (some [(ascii "report", 7)]) (by decide) (by decide)⟩
